import Mathlib

/-!
Verification of the gang workflow engine (`src/workflows/gangEngine.js`).

The JavaScript source is shallowly embedded as executable Lean definitions:

* JavaScript values produced by `JSON.parse` are modelled by the inductive
  `Json`; `JSON.parse` itself is an external runtime primitive and is passed
  in as an explicit function `jsonParse : String → Option Json`
  (`none` models a thrown `SyntaxError`).
* `parseMemberJsonOutput` and the no-tools path of `MemberRunner.run` are
  translated field by field; the LLM capability is an injected function,
  exactly as the engine allows via its `llmFactory` hook.
* the graph interpreter `runGraph` is translated with its per-member state
  threaded explicitly; the `while (current && safetyCounter < 50)` loop
  becomes structural recursion on the remaining fuel `50 - safetyCounter`.
* member turns are deterministic functions `input → ctx → output`
  (the engine with a stubbed LLM, which is how its own tests run it);
  observability events and report files are not modelled (no claim
  mentions them).
-/

namespace Gang

/-- JavaScript values that `JSON.parse` can return.  Numbers are modelled as
integers (no claim involves fractional values). -/
inductive Json where
  | null
  | bool (b : Bool)
  | num (n : Int)
  | str (s : String)
  | arr (elems : List Json)
  | obj (fields : List (String × Json))
deriving Repr

/-- JavaScript truthiness of a `Json` value. -/
def Json.truthy : Json → Bool
  | .null => false
  | .bool b => b
  | .num n => n != 0
  | .str s => s != ""
  | .arr _ => true
  | .obj _ => true

/-- `typeof v === "object"`: true for objects, arrays and `null`. -/
def Json.typeofObject : Json → Bool
  | .null => true
  | .arr _ => true
  | .obj _ => true
  | _ => false

/-- Property access `v[k]`; `none` models the JavaScript `undefined`. -/
def Json.getField : Json → String → Option Json
  | .obj fields, k => (fields.find? (fun p => p.1 == k)).map (fun p => p.2)
  | _, _ => none

/-- The nullish-coalescing operator `x ?? d`: `d` exactly when `x` is
`undefined` (here `none`) or `null`. -/
def nullishOr (v : Option Json) (d : Json) : Json :=
  match v with
  | none => d
  | some .null => d
  | some x => x

/-- Result record of `parseMemberJsonOutput`. -/
structure StructuredOutput where
  content : Json
  next : Json
  actions : Json
  raw : String
  parsed : Option Json
deriving Repr

/-- The shared fall-through value of `parseMemberJsonOutput`: used both when
`JSON.parse` throws and when it yields a non-object. -/
def parseFallback (raw : String) : StructuredOutput :=
  { content := .str raw, next := .null, actions := .arr [], raw := raw, parsed := none }

/-- `parseMemberJsonOutput(raw)` (gangEngine.js lines 195-217).
`parseResult` is the outcome of the runtime call `JSON.parse(raw)`. -/
def parseMemberJsonOutput (raw : String) (parseResult : Option Json) : StructuredOutput :=
  match parseResult with
  | none => parseFallback raw
  | some parsed =>
      if parsed.truthy && parsed.typeofObject then
        { content := nullishOr (parsed.getField "content") (.str "")
          next := nullishOr (parsed.getField "next") .null
          actions := nullishOr (parsed.getField "actions") (.arr [])
          raw := raw
          parsed := some parsed }
      else parseFallback raw

/-- One entry of a conversation; assistant entries store `parsed.content`,
which is an arbitrary `Json` value. -/
structure ChatMsg where
  role : String
  content : Json
deriving Repr

/-- Replace the value under `k`, or append `(k, v)` — the update semantics of
both a JavaScript `Map.set` and an object property assignment. -/
def assocSet {α : Type} (l : List (String × α)) (k : String) (v : α) : List (String × α) :=
  if l.any (fun p => p.1 == k) then
    l.map (fun p => if p.1 == k then (k, v) else p)
  else l ++ [(k, v)]

/-- Association-list lookup, `none` when absent (a `Map.get` miss). -/
def lookupA {α : Type} (l : List (String × α)) (k : String) : Option α :=
  (l.find? (fun p => p.1 == k)).map (fun p => p.2)

/-- `GangMemory.get`: `[]` for a falsy id or an unseen bucket. -/
def memGet (mem : List (String × List ChatMsg)) (memoryId : String) : List ChatMsg :=
  if memoryId == "" then []
  else
    match lookupA mem memoryId with
    | some msgs => msgs
    | none => []

/-- `GangMemory.append`: no-op for a falsy id, else concatenation. -/
def memAppend (mem : List (String × List ChatMsg)) (memoryId : String)
    (msgs : List ChatMsg) : List (String × List ChatMsg) :=
  if memoryId == "" then mem
  else assocSet mem memoryId (memGet mem memoryId ++ msgs)

/-- The member definition fields the no-tools `MemberRunner.run` path reads. -/
structure MemberDefM where
  name : String
  role : String
  memoryId : String
deriving Repr

/-- The no-tools system prompt of `MemberRunner.run` (gangEngine.js 315-324). -/
def systemPromptNoTools (name role : String) : String :=
  "You are " ++ name ++ ", role: " ++ role ++ ".\n" ++
  "You are part of a gang team. Previous shared context may be provided.\n\n" ++
  "IMPORTANT: Respond with JSON only. Do NOT invent or hallucinate workflow steps.\n" ++
  "- For \"next\" field: ONLY use actual member names that exist in your team, OR null to end the workflow\n" ++
  "- Do NOT create fake workflow steps like \"request_requirements\", \"gather_stakeholder_input\", etc.\n" ++
  "- If you don\x27t know what to do next, set \"next\": null\n\n" ++
  "ALWAYS respond with STRICT JSON of shape \x7b\"content\": string, \"next\": string|null, \"actions\": any[]\x7d."

/-- The user-turn content; `ctxSerialized` stands for the runtime string
`JSON.stringify(ctx, null, 2)`. -/
def userContent (input ctxSerialized : String) : String :=
  "Gang workflow input:\n" ++ input ++ "\n\nContext:\n" ++ ctxSerialized

/-- The message list the no-tools path sends to the LLM. -/
def memberMessages (d : MemberDefM) (mem : List (String × List ChatMsg))
    (input ctxSerialized : String) : List ChatMsg :=
  { role := "system", content := .str (systemPromptNoTools d.name d.role) }
    :: memGet mem d.memoryId
    ++ [{ role := "user", content := .str (userContent input ctxSerialized) }]

/-- The no-tools path of `MemberRunner.run` (gangEngine.js 315-361): one LLM
exchange, tolerant parse, memory append, return the parsed structure.  The
LLM capability is the injected `llm`; its reply text is `llm messages`.
The function is total: malformed model output cannot make it fail. -/
def memberRun (d : MemberDefM) (llm : List ChatMsg → String)
    (jsonParse : String → Option Json)
    (mem : List (String × List ChatMsg)) (input ctxSerialized : String) :
    StructuredOutput × List (String × List ChatMsg) :=
  let text := llm (memberMessages d mem input ctxSerialized)
  let parsed := parseMemberJsonOutput text (jsonParse text)
  let memA := memAppend mem d.memoryId
    [{ role := "user", content := .str input },
     { role := "assistant", content := parsed.content }]
  (parsed, memA)

/-- A workflow step `{from, to, when}`; `from` is a Lean keyword so the field
is `from_`. -/
structure Step where
  from_ : String
  to_ : String
  when_ : String
deriving Repr, DecidableEq

/-- Structured output as it flows through the graph interpreter.  There the
engine only ever reads `content` (a string fed to the next member or to the
assertion evaluator), `next` (a node-name hint; JavaScript `null` is `none`)
and `raw`; `actions` is never read by the interpreter and is omitted. -/
structure SOut where
  content : String
  next : Option String
  raw : String
deriving Repr, DecidableEq, Inhabited

/-- A value stored in the shared per-run context object `ctx`. -/
inductive CtxVal where
  | memberOut (o : SOut)
  | squadOuts (outs : List (String × SOut))
deriving Repr, DecidableEq

/-- The shared context mapping node name → recorded result. -/
abbrev Ctx := List (String × CtxVal)

/-- One member turn, as the engine sees it: `input → ctx → structured output`.
With the injectable deterministic LLM stub this is exactly
`MemberRunner.run`. -/
abbrev Behavior := String → Ctx → SOut

/-- A squad declaration `{name, members, mode}`. -/
structure SquadDef where
  name : String
  members : List String
  mode : String
deriving Repr, DecidableEq

/-- The errors the engine throws, one constructor per `throw new Error(...)`
site relevant to the claims. -/
inductive GangError where
  | missingField (f : String)
  | emptyMembers
  | unknownEntry (entry : String)
  | unknownSquadMember (squad member : String)
  | unknownNode (node : String)
  | entryRequired
  | noTests
deriving Repr, DecidableEq

/-- A recorded node result (the objects pushed onto `nodeResults`). -/
inductive NodeResult where
  | memberNode (nodeName : String) (output : SOut) (next : Option String)
  | squadNode (nodeName : String) (mode : String) (outputs : List (String × SOut))
      (next : Option String)
deriving Repr, DecidableEq

/-- The `next` field of a node result (`result.next` in `runGraph`). -/
def NodeResult.nextHint : NodeResult → Option String
  | .memberNode _ _ n => n
  | .squadNode _ _ _ n => n

/-- The `nodeName` field of a node result. -/
def NodeResult.nodeName : NodeResult → String
  | .memberNode n _ _ => n
  | .squadNode n _ _ _ => n

/-- JavaScript truthiness of the engine-level `next` values: `null` and the
empty string are falsy. -/
def strTruthy : Option String → Bool
  | some s => s != ""
  | none => false

/-- Parallel squad execution (gangEngine.js 475-483): the `.map` over
`squadMeta.members` looks members up and starts their runs in declaration
order, throwing at the first unknown name; `Promise.all` then yields the
results in the same declaration order.  With deterministic behaviors this is
the sequentialisation below; completion-order independence of `Promise.all`
is modelled separately by `assembleResults`. -/
def parRunE (members : List (String × Behavior)) (squadName : String)
    (names : List String) (input : String) (ctx : Ctx) :
    Except GangError (List (String × SOut)) :=
  match names with
  | [] => .ok []
  | n :: rest =>
      match lookupA members n with
      | none => .error (.unknownSquadMember squadName n)
      | some b =>
          let out := b input ctx
          match parRunE members squadName rest input ctx with
          | .error e => .error e
          | .ok outs => .ok ((n, out) :: outs)

/-- Sequential squad execution (gangEngine.js 496-510): members run one at a
time in declaration order and each member after the first receives the
previous output `content` as its input. -/
def seqRunE (members : List (String × Behavior)) (squadName : String)
    (names : List String) (input : String) (ctx : Ctx) :
    Except GangError (List (String × SOut)) :=
  match names with
  | [] => .ok []
  | n :: rest =>
      match lookupA members n with
      | none => .error (.unknownSquadMember squadName n)
      | some b =>
          let out := b input ctx
          match seqRunE members squadName rest out.content ctx with
          | .error e => .error e
          | .ok outs => .ok ((n, out) :: outs)

/-- `outputs.find((o) => o.next)?.next ?? null` — the parallel squad hint. -/
def squadNextOf (outs : List SOut) : Option String :=
  match outs.find? (fun o => strTruthy o.next) with
  | some o => o.next
  | none => none

/-- `steps.find((s) => s.from === nodeName && s.when === "always")?.to`. -/
def findAlways (steps : List Step) (nodeName : String) : Option String :=
  match steps.find? (fun s => s.from_ == nodeName && s.when_ == "always") with
  | some st => some st.to_
  | none => none

/-- Edge resolution (gangEngine.js 540-563), including the JavaScript
truthiness tests `if (structuredNext)` and `structuredNext || null`. -/
def resolveNext (steps : List Step) (nodeName : String)
    (structuredNext : Option String) : Option String :=
  if steps.length == 0 then
    if strTruthy structuredNext then structuredNext else none
  else
    match structuredNext with
    | some h =>
        if h != "" then
          match steps.find? (fun s =>
              s.from_ == nodeName && (s.to_ == h || s.when_ == h)) with
          | some st => some st.to_
          | none => findAlways steps nodeName
        else findAlways steps nodeName
    | none => findAlways steps nodeName

/-- One node visit (gangEngine.js 472-535): squad lookup first, then member
lookup, recording the result into `ctx` under the node name.  For a squad
found with a mode other than `"parallel"` the recorded mode is the literal
`"sequential"`, as in the source. -/
def runNode (members : List (String × Behavior)) (squads : List SquadDef)
    (input : String) (ctx : Ctx) (nodeName : String) :
    Except GangError (NodeResult × Ctx) :=
  match squads.find? (fun s => s.name == nodeName) with
  | some squadMeta =>
      if squadMeta.mode == "parallel" then
        match parRunE members squadMeta.name squadMeta.members input ctx with
        | .error e => .error e
        | .ok outs =>
            let nxt := squadNextOf (outs.map (fun p => p.2))
            .ok (NodeResult.squadNode nodeName "parallel" outs nxt,
                 assocSet ctx nodeName (.squadOuts outs))
      else
        match seqRunE members squadMeta.name squadMeta.members input ctx with
        | .error e => .error e
        | .ok outs =>
            let nxt := match outs.getLast? with
              | some l => l.2.next
              | none => none
            .ok (NodeResult.squadNode nodeName "sequential" outs nxt,
                 assocSet ctx nodeName (.squadOuts outs))
  | none =>
      match lookupA members nodeName with
      | none => .error (.unknownNode nodeName)
      | some b =>
          let out := b input ctx
          .ok (NodeResult.memberNode nodeName out out.next,
               assocSet ctx nodeName (.memberOut out))

/-- The `while (current && safetyCounter < 50)` loop of `runGraph`
(gangEngine.js 465-567).  The counter is incremented once per iteration, so
the loop body runs at most 50 times; the fuel argument is the remaining
`50 - safetyCounter`, which makes the recursion structural. -/
def runLoop (members : List (String × Behavior)) (squads : List SquadDef)
    (steps : List Step) (input : String) :
    Nat → String → Ctx → List NodeResult → Except GangError (List NodeResult)
  | 0, _, _, acc => .ok acc
  | fuel + 1, current, ctx, acc =>
      if current == "" then .ok acc
      else
        match runNode members squads input ctx current with
        | .error e => .error e
        | .ok (result, ctxA) =>
            let accA := acc ++ [result]
            match resolveNext steps current result.nextHint with
            | some s =>
                if s != "" then runLoop members squads steps input fuel s ctxA accA
                else .ok accA
            | none => .ok accA

/-- The value `runGraph` returns: the ordered node results and
`nodeResults[nodeResults.length - 1] || null`. -/
structure RunResult where
  nodes : List NodeResult
  final : Option NodeResult
deriving Repr, DecidableEq

/-- `GangEngine.runGraph` (gangEngine.js 442-588) over an already loaded
engine: members and squads are the built maps, `steps` is
`config.workflow?.steps || []` and `entry` is `config.workflow?.entry`
(the falsy guard throws before the loop). -/
def runGraph (members : List (String × Behavior)) (squads : List SquadDef)
    (steps : List Step) (entry : String) (input : String) :
    Except GangError RunResult :=
  if entry == "" then .error .entryRequired
  else
    match runLoop members squads steps input 50 entry [] [] with
    | .error e => .error e
    | .ok nodes => .ok { nodes := nodes, final := nodes.getLast? }

/-- The member-definition field `validateConfig` reads. -/
structure MemberDefC where
  name : String
deriving Repr, DecidableEq

/-- The workflow object of a configuration. -/
structure WorkflowC where
  entry : String
  steps : List Step
deriving Repr, DecidableEq

/-- A gang configuration, restricted to the fields `validateConfig` and
`load` inspect.  `none` models an absent field; a present `members` array is
modelled as `some list` (a present array is always truthy in JavaScript,
even when empty). -/
structure GangConfig where
  version : Option Json
  llm : Option Json
  members : Option (List MemberDefC)
  workflow : Option WorkflowC
  squads : List SquadDef
deriving Repr

/-- Truthiness of an optional configuration field (`!config[field]`). -/
def optTruthy : Option Json → Bool
  | none => false
  | some v => v.truthy

/-- `GangEngine.validateConfig` (gangEngine.js 382-400): required-field
checks in order, the non-empty members check, then the entry check — which
consults only `config.members`, never `config.squads`. -/
def validateConfig (c : GangConfig) : Except GangError Unit :=
  if ¬ optTruthy c.version then .error (.missingField "version")
  else if ¬ optTruthy c.llm then .error (.missingField "llm")
  else
    match c.members with
    | none => .error (.missingField "members")
    | some ms =>
        match c.workflow with
        | none => .error (.missingField "workflow")
        | some w =>
            if ms.length == 0 then .error .emptyMembers
            else if ms.any (fun m => m.name == w.entry) then .ok ()
            else .error (.unknownEntry w.entry)

/-- What `load` builds from a configuration.  Tool and LLM construction are
not modelled: no claim mentions them and the modelled members declare no
tools. -/
structure LoadedGang where
  memberNames : List String
  squads : List SquadDef
deriving Repr, DecidableEq

/-- `GangEngine.load` (gangEngine.js 402-440): validate, then build one
runner per member and record squads by name.  Squad member names are not
checked here. -/
def load (c : GangConfig) : Except GangError LoadedGang :=
  match validateConfig c with
  | .error e => .error e
  | .ok _ =>
      .ok { memberNames := (c.members.getD []).map (fun m => m.name),
            squads := c.squads }

/-- A test assertion `{type, target, value}`. -/
structure Assertion where
  type : String
  target : String
  value : String
deriving Repr, DecidableEq

/-- An evaluated assertion: the assertion fields spread together with
`passed` and either `actualSnippet` or the unknown-type `error` marker. -/
structure AssertionResult where
  type : String
  target : String
  value : String
  passed : Bool
  actualSnippet : Option String
  error : Option String
deriving Repr, DecidableEq

/-- The text recorded for one output in `evaluateTestAssertions`:
`String(o.content ?? o.raw ?? "")`.  In the engine `content` is always a
present string (the parser yields the parsed content or the raw text or its
default `""`), so the two nullish fallbacks never fire and the recorded
text is the content itself. -/
def textOfOutput (o : SOut) : String := o.content

/-- The flat mapping member name → text built from `run.nodes`
(gangEngine.js 623-635); squad entries flatten per constituent member,
later nodes overwrite earlier ones. -/
def memberOutputsOf (nodes : List NodeResult) : List (String × String) :=
  nodes.foldl
    (fun acc node =>
      match node with
      | .squadNode _ _ outs _ =>
          outs.foldl (fun accI p => assocSet accI p.1 (textOfOutput p.2)) acc
      | .memberNode nodeName out _ => assocSet acc nodeName (textOfOutput out))
    []

/-- `String.prototype.includes`: literal case-sensitive substring test,
i.e. the character list of `sub` occurs contiguously in that of `s`. -/
def jsIncludes (s sub : String) : Bool := decide (sub.toList <:+: s.toList)

/-- `GangEngine.evaluateTestAssertions` (gangEngine.js 619-657) applied to a
test with assertion list `asserts` and a run with node list `nodes`.
`memberOutputs[targetName] || ""` sends both a missing target and an empty
recorded text to `""`. -/
def evaluateTestAssertions (asserts : List Assertion) (nodes : List NodeResult) :
    List AssertionResult :=
  let memberOutputs := memberOutputsOf nodes
  asserts.map (fun a =>
    if a.type == "contains" then
      let txt := (lookupA memberOutputs a.target).getD ""
      { type := a.type, target := a.target, value := a.value,
        passed := jsIncludes txt a.value,
        actualSnippet := some (txt.take 200), error := none }
    else
      { type := a.type, target := a.target, value := a.value,
        passed := false, actualSnippet := none,
        error := some ("Unknown assertion type: " ++ a.type) })

/-- A test definition `{name, input, asserts}`. -/
structure TestDef where
  name : String
  input : String
  asserts : List Assertion
deriving Repr, DecidableEq

/-- The per-test loop body of `GangEngine.runTests` (gangEngine.js 606-612):
run the graph on the test input, then evaluate the assertions; a run failure
aborts the remaining tests, assertion evaluation never does. -/
def runTestsLoop (members : List (String × Behavior)) (squads : List SquadDef)
    (steps : List Step) (entry : String) :
    List TestDef → Except GangError (List (TestDef × RunResult × List AssertionResult))
  | [] => .ok []
  | t :: rest =>
      match runGraph members squads steps entry t.input with
      | .error e => .error e
      | .ok run =>
          match runTestsLoop members squads steps entry rest with
          | .error e => .error e
          | .ok rs => .ok ((t, run, evaluateTestAssertions t.asserts run.nodes) :: rs)

/-- `GangEngine.runTests` (gangEngine.js 594-617), report writing omitted. -/
def runTests (members : List (String × Behavior)) (squads : List SquadDef)
    (steps : List Step) (entry : String) (tests : List TestDef) :
    Except GangError (List (TestDef × RunResult × List AssertionResult)) :=
  if tests.length == 0 then .error .noTests
  else runTestsLoop members squads steps entry tests

/-- `Promise.all` result assembly: completion events `(index, value)` arrive
in an arbitrary order and each writes its slot of the result array. -/
def assembleResults (n : Nat) (events : List (Nat × SOut)) : List (Option SOut) :=
  events.foldl (fun acc p => acc.set p.1 (some p.2)) (List.replicate n none)

/-- Modelled from the spec: the successor rule as the specification words it
(spec.md, Edge resolution).  `hint = some h` is an emitted hint, `none` no
hint. -/
def specSuccessor (steps : List Step) (nodeName : String) (hint : Option String) :
    Option String :=
  match hint with
  | some h =>
      if steps.length == 0 then some h
      else
        match steps.find? (fun s =>
            s.from_ == nodeName && (s.to_ == h || s.when_ == h)) with
        | some st => some st.to_
        | none => findAlways steps nodeName
  | none =>
      if steps.length == 0 then none
      else findAlways steps nodeName

/-- Modelled from the spec: the parallel squad hint as the specification
words it — the first non-empty hint scanned in declaration order, else
none. -/
def specFirstHint : List SOut → Option String
  | [] => none
  | o :: rest =>
      match o.next with
      | some h => if h != "" then some h else specFirstHint rest
      | none => specFirstHint rest

/-- Modelled from the spec: the per-member text of the assertion mapping as
claim C7 words it — the content, or the raw text when the content is the
empty string. -/
def specMemberText (content raw : String) : String :=
  if content == "" then raw else content

/-- The mapping member name → content built from `run.nodes` — the amended
reading of claim C7: the recorded text is always the output content and the
raw text is never consulted. -/
def contentMapOf (nodes : List NodeResult) : List (String × String) :=
  nodes.foldl
    (fun acc node =>
      match node with
      | .squadNode _ _ outs _ =>
          outs.foldl (fun accI p => assocSet accI p.1 p.2.content) acc
      | .memberNode nodeName out _ => assocSet acc nodeName out.content)
    []

/-- The `analysisGang` configuration of `examples/gang-examples.js`, reduced
to the fields `validateConfig` reads.  Its workflow entry is the declared
squad `analysis_squad`.  The example also declares a third step whose `to`
is `null`; steps are not read by `validateConfig` and a null `to` is not
representable in `Step`, so that step is omitted here. -/
def analysisGangConfig : GangConfig :=
  { version := some (.num 1),
    llm := some (.obj [("model", .str "GLM-4.5-Flash")]),
    members := some [⟨"collector"⟩, ⟨"analyst"⟩, ⟨"reporter"⟩, ⟨"reviewer"⟩],
    workflow := some ⟨"analysis_squad",
      [⟨"analysis_squad", "production_squad", "data_analyzed"⟩,
       ⟨"analysis_squad", "reviewer", "no_data_needed"⟩]⟩,
    squads := [⟨"analysis_squad", ["collector", "analyst"], "parallel"⟩,
               ⟨"production_squad", ["reporter", "reviewer"], "sequential"⟩] }

/-- A configuration whose squad `s` lists the undeclared member `ghost`
while the entry is the declared member `a` — the run-time failure case of
claim C10. -/
def ghostSquadConfig : GangConfig :=
  { version := some (.num 1),
    llm := some (.obj []),
    members := some [⟨"a"⟩],
    workflow := some ⟨"a", []⟩,
    squads := [⟨"s", ["ghost"], "parallel"⟩] }

/-- A fixed member behavior used by concrete witness runs. -/
def stubBehavior : Behavior := fun _ _ => { content := "X", next := none, raw := "r" }

/-- A member behavior that always hints its own node `a` — a one-node cycle
exercising the 50-visit safety cap. -/
def loopBehavior : Behavior := fun _ _ => { content := "c", next := some "a", raw := "r" }

/-- The node result every visit of the `loopBehavior` cycle records. -/
def loopResult : NodeResult :=
  .memberNode "a" { content := "c", next := some "a", raw := "r" } (some "a")

/-! ### Theorems -/

/-- Claim C1 (code_bug evidence): the workflow entry of the repository's own
`analysisGang` example names a declared squad and no declared member, and
`validateConfig` rejects it with the unknown-entry error — contradicting the
specification and the repository documentation, which allow a squad as the
starting node. -/
theorem claimC1_bug :
    analysisGangConfig.squads.any (fun s => s.name == "analysis_squad") = true ∧
    validateConfig analysisGangConfig = .error (.unknownEntry "analysis_squad") := by
  exact ⟨rfl, rfl⟩

/-- Claim C4: whenever `JSON.parse` fails on the raw model output,
`parseMemberJsonOutput` yields exactly the degraded structure
`{content: rawText, next: null, actions: []}`, and the (total, hence
never-raising) no-tools `MemberRunner.run` returns that degraded structure
as its result. -/
theorem claimC4 :
    (∀ (jsonParse : String → Option Json) (raw : String),
        jsonParse raw = none →
        parseMemberJsonOutput raw (jsonParse raw) = parseFallback raw) ∧
    (∀ (d : MemberDefM) (llm : List ChatMsg → String)
        (jsonParse : String → Option Json)
        (mem : List (String × List ChatMsg)) (input ctxSerialized : String),
        jsonParse (llm (memberMessages d mem input ctxSerialized)) = none →
        (memberRun d llm jsonParse mem input ctxSerialized).1 =
          parseFallback (llm (memberMessages d mem input ctxSerialized))) := by
  constructor
  · intro jsonParse raw h
    rw [h]
    rfl
  · intro d llm jsonParse mem input ctxSerialized h
    simp only [memberRun, h]
    rfl

/-- Witness for C4 at a concrete malformed output. -/
theorem claimC4_witness :
    parseMemberJsonOutput "oops" ((fun _ => none) "oops") = parseFallback "oops" ∧
    (memberRun ⟨"m", "r", "shared"⟩ (fun _ => "oops") (fun _ => none) [] "in" "ctx").1 =
      parseFallback ((fun _ => "oops")
        (memberMessages ⟨"m", "r", "shared"⟩ [] "in" "ctx")) := by
  exact ⟨claimC4.1 (fun _ => none) "oops" rfl,
         claimC4.2 ⟨"m", "r", "shared"⟩ (fun _ => "oops") (fun _ => none) [] "in" "ctx" rfl⟩

/-- Claim C9: a raw string parsing to a JSON primitive (null, boolean,
number or string) falls back exactly as invalid JSON does, and a parsed
object missing `content`, `next` or `actions` defaults that field to `""`
(not the raw text), `null`, or `[]` respectively. -/
theorem claimC9 :
    (∀ (raw : String) (v : Json),
        (v = .null ∨ (∃ b, v = .bool b) ∨ (∃ n, v = .num n) ∨ (∃ s, v = .str s)) →
        parseMemberJsonOutput raw (some v) = parseFallback raw) ∧
    (∀ (raw : String) (fields : List (String × Json)),
        (Json.obj fields).getField "content" = none →
        (parseMemberJsonOutput raw (some (.obj fields))).content = .str "") ∧
    (∀ (raw : String) (fields : List (String × Json)),
        (Json.obj fields).getField "next" = none →
        (parseMemberJsonOutput raw (some (.obj fields))).next = .null) ∧
    (∀ (raw : String) (fields : List (String × Json)),
        (Json.obj fields).getField "actions" = none →
        (parseMemberJsonOutput raw (some (.obj fields))).actions = .arr []) := by
  refine ⟨?_, ?_, ?_, ?_⟩
  · intro raw v hv
    rcases hv with rfl | ⟨b, rfl⟩ | ⟨n, rfl⟩ | ⟨s, rfl⟩ <;>
      simp [parseMemberJsonOutput, Json.truthy, Json.typeofObject]
  · intro raw fields h
    simp [parseMemberJsonOutput, Json.truthy, Json.typeofObject, nullishOr, h]
  · intro raw fields h
    simp [parseMemberJsonOutput, Json.truthy, Json.typeofObject, nullishOr, h]
  · intro raw fields h
    simp [parseMemberJsonOutput, Json.truthy, Json.typeofObject, nullishOr, h]

/-- Witness for C9 at a concrete number and a concrete field-free object. -/
theorem claimC9_witness :
    parseMemberJsonOutput "5" (some (.num 5)) = parseFallback "5" ∧
    (parseMemberJsonOutput "x" (some (.obj [("other", .bool true)]))).content = .str "" ∧
    (parseMemberJsonOutput "x" (some (.obj [("other", .bool true)]))).next = .null ∧
    (parseMemberJsonOutput "x" (some (.obj [("other", .bool true)]))).actions = .arr [] := by
  exact ⟨claimC9.1 "5" (.num 5) (Or.inr (Or.inr (Or.inl ⟨5, rfl⟩))),
         claimC9.2.1 "x" [("other", .bool true)] rfl,
         claimC9.2.2.1 "x" [("other", .bool true)] rfl,
         claimC9.2.2.2 "x" [("other", .bool true)] rfl⟩

/-- Helper: a successful `runLoop` adds at most `fuel` results to the
accumulator. -/
theorem runLoop_length_le (members : List (String × Behavior)) (squads : List SquadDef)
    (steps : List Step) (input : String) :
    ∀ (fuel : Nat) (current : String) (ctx : Ctx) (acc l : List NodeResult),
      runLoop members squads steps input fuel current ctx acc = .ok l →
      l.length ≤ acc.length + fuel := by
  intro fuel
  induction fuel with
  | zero =>
      intro current ctx acc l h
      simp only [runLoop, Except.ok.injEq] at h
      subst h
      simp
  | succ n ih =>
      intro current ctx acc l h
      by_cases hc : (current == "") = true
      · simp only [runLoop, hc, if_pos, Except.ok.injEq] at h
        subst h
        simp
      · rcases hrn : runNode members squads input ctx current with e | p
        · simp [runLoop, hc, hrn] at h
        · obtain ⟨result, ctxA⟩ := p
          rcases hr : resolveNext steps current result.nextHint with _ | s
          · simp only [runLoop, hc, hrn, hr, if_neg, Bool.not_eq_true,
              Except.ok.injEq] at h
            subst h
            simp
          · by_cases hs : (s != "") = true
            · have h2 : runLoop members squads steps input n s ctxA (acc ++ [result]) = .ok l := by
                simpa [runLoop, hc, hrn, hr, hs] using h
              have := ih s ctxA (acc ++ [result]) l h2
              simp [List.length_append] at this
              omega
            · simp only [runLoop, hc, hrn, hr, hs, if_neg, Bool.not_eq_true,
                Except.ok.injEq] at h
              subst h
              simp

/-- Claim C2: for hints that are `null` or a genuine (non-empty) node name,
the engine's successor choice `resolveNext` coincides with the rule as the
spec words it (`specSuccessor`): no steps ⇒ the hint itself; steps and a
hint ⇒ the `to` of a step with matching `from` and `to`/`when` equal to the
hint, else of the `always` step; no hint ⇒ only the `always` step; and when
nothing matches the loop ends normally (no error) with the last node result
as final. -/
theorem claimC2 :
    (∀ (steps : List Step) (node : String) (hint : Option String),
        (hint = none ∨ ∃ h, hint = some h ∧ h ≠ "") →
        resolveNext steps node hint = specSuccessor steps node hint) ∧
    (∀ (members : List (String × Behavior)) (squads : List SquadDef)
        (steps : List Step) (input : String) (fuel : Nat) (current : String)
        (ctx ctxA : Ctx) (acc : List NodeResult) (result : NodeResult),
        (current == "") = false →
        runNode members squads input ctx current = .ok (result, ctxA) →
        strTruthy (resolveNext steps current result.nextHint) = false →
        runLoop members squads steps input (fuel + 1) current ctx acc =
          .ok (acc ++ [result])) := by
  constructor
  · intro steps node hint hadm
    rcases hadm with rfl | ⟨h, rfl, hne⟩
    · simp [resolveNext, specSuccessor, strTruthy]
    · have hb : (h != "") = true := bne_iff_ne.mpr hne
      simp [resolveNext, specSuccessor, strTruthy, hb]
  · intro members squads steps input fuel current ctx ctxA acc result hc hrun hres
    rcases hr : resolveNext steps current result.nextHint with _ | s
    · simp [runLoop, hc, hrun, hr]
    · rw [hr] at hres
      have hs : (s != "") = false := by simpa [strTruthy] using hres
      simp [runLoop, hc, hrun, hr, hs]

/-- Witness for C2: a concrete hint resolution and a concrete run that ends
normally when no step matches. -/
theorem claimC2_witness :
    resolveNext [⟨"a", "b", "go"⟩] "a" (some "stop") =
      specSuccessor [⟨"a", "b", "go"⟩] "a" (some "stop") ∧
    runLoop [("a", stubBehavior)] [] [] "in" 1 "a" [] [] =
      .ok ([] ++ [NodeResult.memberNode "a" { content := "X", next := none, raw := "r" } none]) := by
  exact ⟨claimC2.1 [⟨"a", "b", "go"⟩] "a" (some "stop") (Or.inr ⟨"stop", rfl, by decide⟩),
         claimC2.2 [("a", stubBehavior)] [] [] "in" 0 "a" []
           [("a", .memberOut { content := "X", next := none, raw := "r" })] []
           (NodeResult.memberNode "a" { content := "X", next := none, raw := "r" } none)
           rfl rfl rfl⟩

/-- Claim C3: exceeding the visit counter never raises — exhausted fuel
returns the accumulated results as they stand; any successful run records at
most 50 node results; and the concrete one-member cycle whose node always
hints itself returns normally with exactly 50 visits, the final result being
the 50th visited node's result. -/
theorem claimC3 :
    (∀ (members : List (String × Behavior)) (squads : List SquadDef)
        (steps : List Step) (input current : String) (ctx : Ctx)
        (acc : List NodeResult),
        runLoop members squads steps input 0 current ctx acc = .ok acc) ∧
    (∀ (members : List (String × Behavior)) (squads : List SquadDef)
        (steps : List Step) (entry input : String) (r : RunResult),
        runGraph members squads steps entry input = .ok r →
        r.nodes.length ≤ 50) ∧
    (runGraph [("a", loopBehavior)] [] [] "a" "in" =
      .ok { nodes := List.replicate 50 loopResult,
            final := some loopResult }) := by
  refine ⟨?_, ?_, ?_⟩
  · intro members squads steps input current ctx acc
    simp [runLoop]
  · intro members squads steps entry input r h
    by_cases he : (entry == "") = true
    · simp [runGraph, he] at h
    · rcases hrl : runLoop members squads steps input 50 entry [] [] with e | nodes
      · simp [runGraph, he, hrl] at h
      · have hlen := runLoop_length_le members squads steps input 50 entry [] [] nodes hrl
        have : r = { nodes := nodes, final := nodes.getLast? } := by
          simpa [runGraph, he, hrl] using h.symm
        subst this
        simpa using hlen
  · rfl

/-- Witness for C3: the cap bound applied to the concrete capped cyclic
run. -/
theorem claimC3_witness :
    runLoop [("a", loopBehavior)] [] [] "in" 0 "a" [] [loopResult] = .ok [loopResult] ∧
    ({ nodes := List.replicate 50 loopResult,
       final := some loopResult } : RunResult).nodes.length ≤ 50 := by
  exact ⟨claimC3.1 [("a", loopBehavior)] [] [] "in" "a" [] [loopResult],
         claimC3.2.1 [("a", loopBehavior)] [] [] "a" "in"
           { nodes := List.replicate 50 loopResult, final := some loopResult } (by rfl)⟩

/-- Helper: writing completion events into a result array preserves its
length. -/
theorem assemble_length (events : List (Nat × SOut)) :
    ∀ (init : List (Option SOut)),
      (events.foldl (fun acc p => acc.set p.1 (some p.2)) init).length = init.length := by
  induction events with
  | nil => intro init; rfl
  | cons p rest ih =>
      intro init
      simp only [List.foldl_cons]
      rw [ih]
      simp

/-- Helper: after all completion events have been written, a slot holds the
value determined by its index whenever some event touched it, and its
initial value otherwise. -/
theorem assemble_getElem? (f : Nat → SOut) :
    ∀ (events : List (Nat × SOut)) (init : List (Option SOut)),
      (∀ p ∈ events, p.2 = f p.1 ∧ p.1 < init.length) →
      ∀ j : Nat,
        (events.foldl (fun acc p => acc.set p.1 (some p.2)) init)[j]? =
          if events.any (fun p => p.1 == j) then some (some (f j)) else init[j]? := by
  intro events
  induction events with
  | nil => intro init _ j; simp
  | cons p rest ih =>
      intro init hp j
      obtain ⟨hval, hlt⟩ := hp p (List.mem_cons_self p rest)
      have hrest : ∀ q ∈ rest, q.2 = f q.1 ∧ q.1 < (init.set p.1 (some p.2)).length := by
        intro q hq
        have := hp q (List.mem_cons_of_mem p hq)
        simpa using this
      simp only [List.foldl_cons]
      rw [ih (init.set p.1 (some p.2)) hrest j]
      by_cases hany : rest.any (fun q => q.1 == j) = true
      · simp [hany]
      · simp only [Bool.not_eq_true] at hany
        by_cases hij : p.1 = j
        · subst hij
          simp [hany, List.getElem?_set, hlt, hval]
        · have : (p.1 == j) = false := by simpa using hij
          simp [hany, this, List.getElem?_set, hij]

/-- Claim C5: (1) for every completion order that is a permutation of the
member indices, assembling the completion events yields the outputs in
declaration order; (2) the engine's parallel-squad hint equals the first
non-empty hint in declaration order, as the spec words it; (3) a successful
parallel fan-out lists the squad members in declaration order; (4) the
parallel squad node records exactly those ordered outputs with that hint. -/
theorem claimC5 :
    (∀ (outs : List SOut) (schedule : List Nat),
        schedule.Perm (List.range outs.length) →
        assembleResults outs.length
            (schedule.map (fun i => (i, outs.getD i default))) =
          outs.map some) ∧
    (∀ outs : List SOut, squadNextOf outs = specFirstHint outs) ∧
    (∀ (members : List (String × Behavior)) (sqName : String)
        (names : List String) (input : String) (ctx : Ctx)
        (outs : List (String × SOut)),
        parRunE members sqName names input ctx = .ok outs →
        outs.map Prod.fst = names) ∧
    (∀ (members : List (String × Behavior)) (squads : List SquadDef)
        (input : String) (ctx : Ctx) (nodeName : String) (meta : SquadDef)
        (outs : List (String × SOut)),
        squads.find? (fun s => s.name == nodeName) = some meta →
        (meta.mode == "parallel") = true →
        parRunE members meta.name meta.members input ctx = .ok outs →
        runNode members squads input ctx nodeName =
          .ok (NodeResult.squadNode nodeName "parallel" outs
                 (squadNextOf (outs.map (fun p => p.2))),
               assocSet ctx nodeName (.squadOuts outs))) := by
  refine ⟨?_, ?_, ?_, ?_⟩
  · intro outs schedule hperm
    have hlen : ∀ i ∈ schedule, i < outs.length := by
      intro i hi
      exact List.mem_range.mp (hperm.mem_iff.mp hi)
    have hhyp : ∀ p ∈ schedule.map (fun i => (i, outs.getD i default)),
        p.2 = (fun i => outs.getD i default) p.1 ∧
          p.1 < (List.replicate outs.length (none : Option SOut)).length := by
      intro p hp
      obtain ⟨i, hi, rfl⟩ := List.mem_map.mp hp
      exact ⟨rfl, by simpa using hlen i hi⟩
    apply List.ext_getElem?
    intro j
    have hmain := assemble_getElem? (fun i => outs.getD i default)
      (schedule.map (fun i => (i, outs.getD i default)))
      (List.replicate outs.length none) hhyp j
    simp only [assembleResults]
    rw [hmain]
    by_cases hj : j < outs.length
    · have hany : (schedule.map (fun i => (i, outs.getD i default))).any
          (fun p => p.1 == j) = true := by
        refine List.any_eq_true.mpr ⟨(j, outs.getD j default), ?_, by simp⟩
        exact List.mem_map.mpr ⟨j, hperm.mem_iff.mpr (List.mem_range.mpr hj), rfl⟩
      rw [hany]
      simp [List.getElem?_map, List.getD_eq_getElem _ _ hj,
        List.getElem?_eq_getElem hj]
    · have hany : (schedule.map (fun i => (i, outs.getD i default))).any
          (fun p => p.1 == j) = false := by
        rw [Bool.eq_false_iff]
        intro hc
        obtain ⟨p, hp, hpj⟩ := List.any_eq_true.mp hc
        obtain ⟨hv, hlt⟩ := hhyp p hp
        have hpj2 : p.1 = j := by simpa using hpj
        rw [hpj2] at hlt
        simp at hlt
        exact hj hlt
      rw [hany]
      have h1 : (List.replicate outs.length (none : Option SOut))[j]? = none := by
        apply List.getElem?_eq_none
        simp
        omega
      have h2 : (outs.map some)[j]? = none := by
        apply List.getElem?_eq_none
        simp
        omega
      simp [h1, h2]
  · intro outs
    induction outs with
    | nil => rfl
    | cons o rest ih =>
        rcases ho : o.next with _ | h
        · simpa [squadNextOf, specFirstHint, List.find?_cons, strTruthy, ho] using ih
        · by_cases hh : (h != "") = true
          · simp [squadNextOf, specFirstHint, List.find?_cons, strTruthy, ho, hh]
          · simp only [Bool.not_eq_true] at hh
            simpa [squadNextOf, specFirstHint, List.find?_cons, strTruthy, ho, hh] using ih
  · intro members sqName names
    induction names with
    | nil =>
        intro input ctx outs h
        simp only [parRunE, Except.ok.injEq] at h
        subst h
        rfl
    | cons n rest ih =>
        intro input ctx outs h
        rcases hl : lookupA members n with _ | b
        · simp [parRunE, hl] at h
        · rcases hrec : parRunE members sqName rest input ctx with e | outs2
          · simp [parRunE, hl, hrec] at h
          · simp only [parRunE, hl, hrec, Except.ok.injEq] at h
            subst h
            simp [ih input ctx outs2 hrec]
  · intro members squads input ctx nodeName meta outs hfind hmode hpar
    simp [runNode, hfind, hmode, hpar]

/-- Witness for C5: a two-member squad whose second member completes first
still assembles in declaration order; the remaining parts at concrete
inputs. -/
theorem claimC5_witness :
    assembleResults 2
        ([1, 0].map (fun i =>
          (i, [({ content := "A", next := none, raw := "a" } : SOut),
               { content := "B", next := some "w", raw := "b" }].getD i default))) =
      [({ content := "A", next := none, raw := "a" } : SOut),
       { content := "B", next := some "w", raw := "b" }].map some ∧
    squadNextOf [({ content := "A", next := none, raw := "a" } : SOut),
                 { content := "B", next := some "w", raw := "b" }] =
      specFirstHint [({ content := "A", next := none, raw := "a" } : SOut),
                     { content := "B", next := some "w", raw := "b" }] ∧
    ([("a", ({ content := "A", next := none, raw := "a" } : SOut)),
      ("b", { content := "B", next := some "w", raw := "b" })].map Prod.fst = ["a", "b"]) ∧
    runNode [("a", fun _ _ => { content := "A", next := none, raw := "a" }),
             ("b", fun _ _ => { content := "B", next := some "w", raw := "b" })]
        [⟨"s", ["a", "b"], "parallel"⟩] "in" [] "s" =
      .ok (NodeResult.squadNode "s" "parallel"
             [("a", { content := "A", next := none, raw := "a" }),
              ("b", { content := "B", next := some "w", raw := "b" })]
             (squadNextOf
               ([("a", ({ content := "A", next := none, raw := "a" } : SOut)),
                 ("b", { content := "B", next := some "w", raw := "b" })].map (fun p => p.2))),
           assocSet [] "s"
             (.squadOuts [("a", { content := "A", next := none, raw := "a" }),
                          ("b", { content := "B", next := some "w", raw := "b" })])) := by
  refine ⟨?_, ?_, ?_, ?_⟩
  · exact claimC5.1 [{ content := "A", next := none, raw := "a" },
      { content := "B", next := some "w", raw := "b" }] [1, 0] (by decide)
  · exact claimC5.2.1 [{ content := "A", next := none, raw := "a" },
      { content := "B", next := some "w", raw := "b" }]
  · exact claimC5.2.2.1
      [("a", fun _ _ => { content := "A", next := none, raw := "a" }),
       ("b", fun _ _ => { content := "B", next := some "w", raw := "b" })] "s" ["a", "b"] "in" []
      [("a", { content := "A", next := none, raw := "a" }),
       ("b", { content := "B", next := some "w", raw := "b" })] rfl
  · exact claimC5.2.2.2
      [("a", fun _ _ => { content := "A", next := none, raw := "a" }),
       ("b", fun _ _ => { content := "B", next := some "w", raw := "b" })]
      [⟨"s", ["a", "b"], "parallel"⟩] "in" [] "s" ⟨"s", ["a", "b"], "parallel"⟩
      [("a", { content := "A", next := none, raw := "a" }),
       ("b", { content := "B", next := some "w", raw := "b" })] rfl rfl rfl

/-- Claim C6: in a successful sequential squad run the outputs list the
members in declaration order; the first member runs on the node's input;
every later member runs on exactly the previous member's emitted content;
and the recorded squad node carries the last member's hint. -/
theorem claimC6 :
    (∀ (members : List (String × Behavior)) (sqName : String)
        (names : List String) (input : String) (ctx : Ctx)
        (outs : List (String × SOut)),
        seqRunE members sqName names input ctx = .ok outs →
        (outs.map Prod.fst = names ∧
         (∀ h0 : 0 < outs.length, ∃ b,
            lookupA members (outs.get ⟨0, h0⟩).1 = some b ∧
            (outs.get ⟨0, h0⟩).2 = b input ctx) ∧
         (∀ (i : Nat) (h : i + 1 < outs.length), ∃ b,
            lookupA members (outs.get ⟨i + 1, h⟩).1 = some b ∧
            (outs.get ⟨i + 1, h⟩).2 =
              b (outs.get ⟨i, Nat.lt_of_succ_lt h⟩).2.content ctx))) ∧
    (∀ (members : List (String × Behavior)) (squads : List SquadDef)
        (input : String) (ctx : Ctx) (nodeName : String) (meta : SquadDef)
        (outs : List (String × SOut)),
        squads.find? (fun s => s.name == nodeName) = some meta →
        (meta.mode == "parallel") = false →
        seqRunE members meta.name meta.members input ctx = .ok outs →
        runNode members squads input ctx nodeName =
          .ok (NodeResult.squadNode nodeName "sequential" outs
                 (match outs.getLast? with
                  | some l => l.2.next
                  | none => none),
               assocSet ctx nodeName (.squadOuts outs))) := by
  constructor
  · intro members sqName names
    induction names with
    | nil =>
        intro input ctx outs h
        simp only [seqRunE, Except.ok.injEq] at h
        subst h
        refine ⟨rfl, ?_, ?_⟩
        · intro h0
          simp at h0
        · intro i h
          simp at h
    | cons n rest ih =>
        intro input ctx outs h
        rcases hl : lookupA members n with _ | b
        · simp [seqRunE, hl] at h
        · rcases hrec : seqRunE members sqName rest (b input ctx).content ctx with e | outs2
          · simp [seqRunE, hl, hrec] at h
          · simp only [seqRunE, hl, hrec, Except.ok.injEq] at h
            subst h
            obtain ⟨ihmap, ihhead, ihchain⟩ := ih (b input ctx).content ctx outs2 hrec
            refine ⟨by simp [ihmap], ?_, ?_⟩
            · intro h0
              exact ⟨b, by simpa using hl, rfl⟩
            · intro i hsucc
              match i with
              | 0 =>
                  have h0 : 0 < outs2.length := by
                    simpa using Nat.lt_of_succ_lt_succ hsucc
                  obtain ⟨b2, hb2, hout2⟩ := ihhead h0
                  exact ⟨b2, by simpa using hb2, by simpa using hout2⟩
              | j + 1 =>
                  have hj : j + 1 < outs2.length := by
                    simpa using Nat.lt_of_succ_lt_succ hsucc
                  obtain ⟨b2, hb2, hout2⟩ := ihchain j hj
                  exact ⟨b2, by simpa using hb2, by simpa using hout2⟩
  · intro members squads input ctx nodeName meta outs hfind hmode hseq
    simp [runNode, hfind, hmode, hseq]

/-- Witness for C6: in a concrete two-member sequential squad the second
member runs on exactly the content the first member emitted. -/
theorem claimC6_witness :
    ∃ b, lookupA
        [("a", (fun _ _ => { content := "A-out", next := none, raw := "x" } : Behavior)),
         ("b", fun i _ => { content := "got " ++ i, next := some "done", raw := "y" })] "b"
        = some b ∧
      ({ content := "got A-out", next := some "done", raw := "y" } : SOut) = b "A-out" [] := by
  have h := claimC6.1
    [("a", (fun _ _ => { content := "A-out", next := none, raw := "x" } : Behavior)),
     ("b", fun i _ => { content := "got " ++ i, next := some "done", raw := "y" })]
    "s" ["a", "b"] "start" []
    [("a", { content := "A-out", next := none, raw := "x" }),
     ("b", { content := "got A-out", next := some "done", raw := "y" })] rfl
  exact h.2.2 0 (by decide)

set_option maxRecDepth 8192 in
/-- Claim C7 counterexample: a member whose parsed content is the empty
string and whose raw text is "hello".  The claim predicts the assertion
mapping falls back to the raw text, so `contains "hello"` should pass; the
code maps the member to `""` (the `??` fallback fires only on null or
undefined, never on an empty string) and the assertion fails. -/
theorem claimC7_counterexample :
    evaluateTestAssertions [⟨"contains", "a", "hello"⟩]
        [.memberNode "a" ⟨"", none, "hello"⟩ none] =
      [⟨"contains", "a", "hello", false, some "", none⟩] ∧
    jsIncludes (specMemberText "" "hello") "hello" = true := by
  exact ⟨rfl, rfl⟩

/-- Claim C7 (amended): the assertion mapping sends each member name to its
output content — the raw text is never consulted, because parser-produced
contents are always present strings, so an empty content yields the empty
text — and a `contains` assertion passes exactly when the expected value
occurs in that content text as a case-sensitive literal substring. -/
theorem claimC7 :
    (∀ nodes, memberOutputsOf nodes = contentMapOf nodes) ∧
    (∀ (asserts : List Assertion) (nodes : List NodeResult) (i : Nat)
        (h : i < asserts.length)
        (h2 : i < (evaluateTestAssertions asserts nodes).length),
        (asserts.get ⟨i, h⟩).type = "contains" →
        (((evaluateTestAssertions asserts nodes).get ⟨i, h2⟩).passed = true ↔
          (asserts.get ⟨i, h⟩).value.toList <:+:
            ((lookupA (contentMapOf nodes) (asserts.get ⟨i, h⟩).target).getD "").toList)) := by
  have hmap : ∀ nodes, memberOutputsOf nodes = contentMapOf nodes := fun _ => rfl
  refine ⟨hmap, ?_⟩
  intro asserts nodes i h h2 htype
  rw [← hmap nodes]
  simp only [evaluateTestAssertions, List.get_map, htype]
  simp [jsIncludes, decide_eq_true_iff]

/-- Witness for C7 at a concrete passing assertion. -/
theorem claimC7_witness :
    ((evaluateTestAssertions [⟨"contains", "a", "ell"⟩]
        [.memberNode "a" ⟨"hello", none, "zzz"⟩ none]).get ⟨0, by decide⟩).passed = true ↔
      ("ell".toList <:+:
        ((lookupA (contentMapOf [.memberNode "a" ⟨"hello", none, "zzz"⟩ none]) "a").getD
          "").toList) := by
  exact claimC7.2 [⟨"contains", "a", "ell"⟩]
    [.memberNode "a" ⟨"hello", none, "zzz"⟩ none] 0 (by decide) (by decide) rfl

/-- Helper: when every run in the list succeeds, the per-test loop succeeds
and produces one result per test. -/
theorem runTestsLoop_total (members : List (String × Behavior)) (squads : List SquadDef)
    (steps : List Step) (entry : String) :
    ∀ tests : List TestDef,
      (∀ t ∈ tests, ∃ r, runGraph members squads steps entry t.input = .ok r) →
      ∃ rs, runTestsLoop members squads steps entry tests = .ok rs ∧
        rs.length = tests.length := by
  intro tests
  induction tests with
  | nil => intro _; exact ⟨[], rfl, rfl⟩
  | cons t rest ih =>
      intro hall
      obtain ⟨r, hr⟩ := hall t (List.mem_cons_self t rest)
      obtain ⟨rs, hrs, hlen⟩ := ih (fun q hq => hall q (List.mem_cons_of_mem t hq))
      refine ⟨(t, r, evaluateTestAssertions t.asserts r.nodes) :: rs, ?_, by simp [hlen]⟩
      simp [runTestsLoop, hr, hrs]

/-- Claim C8: assertion evaluation yields one result per assertion; every
assertion whose type is not `contains` is recorded failed with the
unknown-assertion-type marker (never raised); and when the runs succeed the
test loop evaluates every test. -/
theorem claimC8 :
    (∀ (asserts : List Assertion) (nodes : List NodeResult),
        (evaluateTestAssertions asserts nodes).length = asserts.length) ∧
    (∀ (asserts : List Assertion) (nodes : List NodeResult) (i : Nat)
        (h : i < asserts.length)
        (h2 : i < (evaluateTestAssertions asserts nodes).length),
        ((asserts.get ⟨i, h⟩).type == "contains") = false →
        (evaluateTestAssertions asserts nodes).get ⟨i, h2⟩ =
          { type := (asserts.get ⟨i, h⟩).type,
            target := (asserts.get ⟨i, h⟩).target,
            value := (asserts.get ⟨i, h⟩).value,
            passed := false, actualSnippet := none,
            error := some ("Unknown assertion type: " ++ (asserts.get ⟨i, h⟩).type) }) ∧
    (∀ (members : List (String × Behavior)) (squads : List SquadDef)
        (steps : List Step) (entry : String) (tests : List TestDef),
        tests ≠ [] →
        (∀ t ∈ tests, ∃ r, runGraph members squads steps entry t.input = .ok r) →
        ∃ rs, runTests members squads steps entry tests = .ok rs ∧
          rs.length = tests.length) := by
  refine ⟨?_, ?_, ?_⟩
  · intro asserts nodes
    simp [evaluateTestAssertions]
  · intro asserts nodes i h h2 htype
    simp only [evaluateTestAssertions, List.get_map, htype]
    simp
  · intro members squads steps entry tests hne hall
    rcases tests with _ | ⟨t, rest⟩
    · exact absurd rfl hne
    · obtain ⟨rs, hrs, hlen⟩ := runTestsLoop_total members squads steps entry (t :: rest) hall
      exact ⟨rs, by simpa [runTests] using hrs, hlen⟩

/-- Witness for C8: a concrete unknown assertion type is recorded failed
with the marker, and a concrete one-test run is fully evaluated. -/
theorem claimC8_witness :
    (evaluateTestAssertions [⟨"regex", "a", "x"⟩]
        [.memberNode "a" ⟨"hello", none, "zzz"⟩ none]).get ⟨0, by decide⟩ =
      { type := "regex", target := "a", value := "x", passed := false,
        actualSnippet := none, error := some ("Unknown assertion type: " ++ "regex") } ∧
    (∃ rs, runTests [("a", stubBehavior)] [] [] "a" [⟨"t1", "in", []⟩] = .ok rs ∧
      rs.length = 1) := by
  constructor
  · exact claimC8.2.1 [⟨"regex", "a", "x"⟩]
      [.memberNode "a" ⟨"hello", none, "zzz"⟩ none] 0 (by decide) (by decide) rfl
  · exact claimC8.2.2 [("a", stubBehavior)] [] [] "a" [⟨"t1", "in", []⟩]
      (by decide) (by intro t ht; simp at ht; subst ht; exact ⟨_, rfl⟩)

/-- Helper: a parallel fan-out fails at the first squad member name with no
declared member, with the unknown-squad-member error naming it. -/
theorem parRunE_first_unknown (members : List (String × Behavior)) (sqName : String) :
    ∀ (pre : List String) (ghost : String) (rest : List String)
      (input : String) (ctx : Ctx),
      (∀ m ∈ pre, (lookupA members m).isSome = true) →
      lookupA members ghost = none →
      parRunE members sqName (pre ++ ghost :: rest) input ctx =
        .error (.unknownSquadMember sqName ghost) := by
  intro pre
  induction pre with
  | nil =>
      intro ghost rest input ctx _ hg
      simp [parRunE, hg]
  | cons m pre2 ih =>
      intro ghost rest input ctx hpre hg
      have hm := hpre m (List.mem_cons_self m pre2)
      rcases hb : lookupA members m with _ | b
      · rw [hb] at hm; simp at hm
      · have hrec := ih ghost rest input ctx
          (fun q hq => hpre q (List.mem_cons_of_mem m hq)) hg
        simp [parRunE, hb, hrec]

/-- Helper: the sequential loop fails at the first squad member name with no
declared member, for any chained input. -/
theorem seqRunE_first_unknown (members : List (String × Behavior)) (sqName : String) :
    ∀ (pre : List String) (ghost : String) (rest : List String)
      (input : String) (ctx : Ctx),
      (∀ m ∈ pre, (lookupA members m).isSome = true) →
      lookupA members ghost = none →
      seqRunE members sqName (pre ++ ghost :: rest) input ctx =
        .error (.unknownSquadMember sqName ghost) := by
  intro pre
  induction pre with
  | nil =>
      intro ghost rest input ctx _ hg
      simp [seqRunE, hg]
  | cons m pre2 ih =>
      intro ghost rest input ctx hpre hg
      have hm := hpre m (List.mem_cons_self m pre2)
      rcases hb : lookupA members m with _ | b
      · rw [hb] at hm; simp at hm
      · have hrec := ih ghost rest (b input ctx).content ctx
          (fun q hq => hpre q (List.mem_cons_of_mem m hq)) hg
        simp [seqRunE, hb, hrec]

/-- Claim C10: a configuration whose squad lists an undeclared member still
validates and loads (validation never inspects squad member lists); the
unknown-squad-member error is raised only when `runGraph` visits that squad
node — in either mode, naming the first undeclared member — and it aborts
the run. -/
theorem claimC10 :
    (∀ (c : GangConfig) (ms : List MemberDefC) (w : WorkflowC),
        c.members = some ms → c.workflow = some w →
        optTruthy c.version = true → optTruthy c.llm = true →
        (ms.length == 0) = false →
        ms.any (fun m => m.name == w.entry) = true →
        load c = .ok { memberNames := ms.map (fun m => m.name),
                       squads := c.squads }) ∧
    (∀ (members : List (String × Behavior)) (squads : List SquadDef)
        (input : String) (ctx : Ctx) (nodeName : String) (meta : SquadDef)
        (pre : List String) (ghost : String) (rest : List String),
        squads.find? (fun s => s.name == nodeName) = some meta →
        meta.members = pre ++ ghost :: rest →
        (∀ m ∈ pre, (lookupA members m).isSome = true) →
        lookupA members ghost = none →
        runNode members squads input ctx nodeName =
          .error (.unknownSquadMember meta.name ghost)) ∧
    (∀ (members : List (String × Behavior)) (squads : List SquadDef)
        (steps : List Step) (input : String) (fuel : Nat) (current : String)
        (ctx : Ctx) (acc : List NodeResult) (e : GangError),
        (current == "") = false →
        runNode members squads input ctx current = .error e →
        runLoop members squads steps input (fuel + 1) current ctx acc = .error e) := by
  refine ⟨?_, ?_, ?_⟩
  · intro c ms w hms hw hv hllm hlen hentry
    simp [load, validateConfig, hms, hw, hv, hllm, hlen, hentry]
  · intro members squads input ctx nodeName meta pre ghost rest hfind hmem hpre hg
    by_cases hmode : (meta.mode == "parallel") = true
    · have := parRunE_first_unknown members meta.name pre ghost rest input ctx hpre hg
      simp [runNode, hfind, hmode, hmem, this]
    · have := seqRunE_first_unknown members meta.name pre ghost rest input ctx hpre hg
      simp only [Bool.not_eq_true] at hmode
      simp [runNode, hfind, hmode, hmem, this]
  · intro members squads steps input fuel current ctx acc e hc hrn
    simp [runLoop, hc, hrn]

/-- Witness for C10: the concrete ghost-squad configuration loads, its squad
node fails at run time naming the ghost, and the failure aborts the run. -/
theorem claimC10_witness :
    load ghostSquadConfig =
      .ok { memberNames := ["a"], squads := [⟨"s", ["ghost"], "parallel"⟩] } ∧
    runNode [("a", stubBehavior)] [⟨"s", ["ghost"], "parallel"⟩] "in" [] "s" =
      .error (.unknownSquadMember "s" "ghost") ∧
    runLoop [("a", stubBehavior)] [⟨"s", ["ghost"], "parallel"⟩] [] "in" 1 "s" [] [] =
      .error (.unknownSquadMember "s" "ghost") := by
  refine ⟨?_, ?_, ?_⟩
  · exact claimC10.1 ghostSquadConfig [⟨"a"⟩] ⟨"a", []⟩ rfl rfl rfl rfl rfl rfl
  · exact claimC10.2.1 [("a", stubBehavior)] [⟨"s", ["ghost"], "parallel"⟩] "in" [] "s"
      ⟨"s", ["ghost"], "parallel"⟩ [] "ghost" [] rfl rfl (by intro m hm; simp at hm) rfl
  · exact claimC10.2.2 [("a", stubBehavior)] [⟨"s", ["ghost"], "parallel"⟩] [] "in" 0 "s" [] []
      (.unknownSquadMember "s" "ghost") rfl
      (claimC10.2.1 [("a", stubBehavior)] [⟨"s", ["ghost"], "parallel"⟩] "in" [] "s"
        ⟨"s", ["ghost"], "parallel"⟩ [] "ghost" [] rfl rfl (by intro m hm; simp at hm) rfl)

end Gang
